import Mathlib

/-!
Shallow embedding of the core pipeline of `src/data/collector.py`
(class `CryptoDataCollector`): normalization of fetched API series
(`fetch_crypto_prices`), the upsert writer (`save_to_database`), the range
reader (`get_crypto_data`) and the orchestrator (`update_all_crypto_data`).

Modelling conventions:
- timestamps are `Int` (epoch milliseconds / an ordered key), monetary values
  are `Rat` (exact stand-in for Python floats);
- the `crypto_prices` table is a `Store := List PriceRecord`, kept in table
  row order; a `SELECT` without `ORDER BY` returns rows in that order;
- SQLite `INSERT OR REPLACE` deletes every row that conflicts on the primary
  key `(timestamp, crypto_id)` and appends the new row;
- a SQLAlchemy transaction is modelled by a session-local pending store:
  each `session.execute` call rewrites the pending store, `session.commit`
  publishes it, `session.rollback` discards it.  `failAt = some j` means the
  j-th `execute` (or, out of range, nothing) raises `SQLAlchemyError`;
- `except`-blocks that catch, log and fall through are modelled by returning
  normally with no error value.
-/

set_option autoImplicit false

namespace CryptoCollector

/-- A row of the `crypto_prices` table (`setup_database`, collector.py
lines 48-56): primary key `(timestamp, crypto_id)`, float columns `price`,
`market_cap`, `volume`. -/
structure PriceRecord where
  timestamp : Int
  crypto_id : String
  price : Rat
  market_cap : Rat
  volume : Rat
deriving Repr, DecidableEq

/-- The `crypto_prices` table in row order. -/
abbrev Store := List PriceRecord

/-- The storage-failure signal the spec calls `StorageError`
(`sqlalchemy.exc.SQLAlchemyError` in the code). -/
inductive StorageError where
  | storageError
deriving Repr, DecidableEq

/-- One row of the pandas DataFrame built by `fetch_single_crypto`
(collector.py lines 127-131): a timestamp index entry plus the three
value columns. -/
structure DFRow where
  timestamp : Int
  price : Rat
  market_cap : Rat
  volume : Rat
deriving Repr, DecidableEq

/-- The composite primary key of a row. -/
def recKey (r : PriceRecord) : Int × String :=
  (r.timestamp, r.crypto_id)

/-- Does record `r` have primary key `(t, c)`? -/
def sameKey (t : Int) (c : String) (r : PriceRecord) : Bool :=
  r.timestamp == t && r.crypto_id == c

/-- SQLite `INSERT OR REPLACE` of one row (collector.py lines 174-177):
delete every stored row conflicting on the `(timestamp, crypto_id)` primary
key, then append the new row. -/
def upsertOne (r : PriceRecord) (s : Store) : Store :=
  (s.filter (fun x => !(sameKey r.timestamp r.crypto_id x))) ++ [r]

/-- One `session.execute(insert().prefix_with('OR REPLACE'), records)` call:
the records of the batch are inserted in order, each with replace-on-conflict
semantics. -/
def upsertBatch (rs : List PriceRecord) (s : Store) : Store :=
  rs.foldl (fun acc r => upsertOne r acc) s

/-- The record dicts built for one `(crypto_id, df)` entry of `crypto_data`
(collector.py lines 162-171): each DataFrame row becomes a record keyed by
the dict key `crypto_id`, taken verbatim. -/
def rowsToRecords (crypto_id : String) (df : List DFRow) : List PriceRecord :=
  df.map (fun row =>
    { timestamp := row.timestamp
      crypto_id := crypto_id
      price := row.price
      market_cap := row.market_cap
      volume := row.volume })

/-- The nonempty record batches passed to `session.execute`, in iteration
order (collector.py lines 161-177; the `if records:` guard skips empty
DataFrames). -/
def execBatches (crypto_data : List (String × List DFRow)) : List (List PriceRecord) :=
  (crypto_data.map (fun g => rowsToRecords g.1 g.2)).filter (fun rs => !rs.isEmpty)

/-- Run the `session.execute` calls of one transaction over the session's
pending store.  `failAt = some 0` makes the next `execute` raise
`SQLAlchemyError`; the counter shifts down by one per completed call. -/
def runExecs : List (List PriceRecord) → Option Nat → Store → Except StorageError Store
  | [], _, pending => .ok pending
  | b :: rest, failAt, pending =>
    if failAt = some 0 then .error .storageError
    else runExecs rest (failAt.map (fun j => j - 1)) (upsertBatch b pending)

/-- `save_to_database` (collector.py lines 150-186): build the record batches,
execute them in one session, `commit` on success.  On `SQLAlchemyError` the
session is rolled back and the error is logged but NOT re-raised, so the
caller sees a normal return either way; the second component is the
exception, if any, that the caller observes. -/
def save_to_database (crypto_data : List (String × List DFRow)) (failAt : Option Nat)
    (s : Store) : Store × Option StorageError :=
  match runExecs (execBatches crypto_data) failAt s with
  | .ok pending => (pending, none)
  | .error _ => (s, none)

/-- Did `failAt` actually make the transaction of this call fail?  True
exactly when some `execute` of the call raises. -/
def failTriggered (crypto_data : List (String × List DFRow)) (failAt : Option Nat) : Bool :=
  match failAt with
  | some j => j < (execBatches crypto_data).length
  | none => false

/-- The `WHERE` clause built by `get_crypto_data` (collector.py lines
206-220), evaluated on one row.  Faithful to the source:
`if crypto_ids:` is Python truthiness, so an empty list imposes no filter;
the start condition is `timestamp >= start_date`; the end condition as
written on line 217 is `timestamp >= end_date` (not `<=`). -/
def matchesFilters (crypto_ids : Option (List String)) (start_date end_date : Option Int)
    (r : PriceRecord) : Bool :=
  (match crypto_ids with
   | some ids => if ids.isEmpty then true else ids.contains r.crypto_id
   | none => true)
  && (match start_date with
      | some t => decide (t ≤ r.timestamp)
      | none => true)
  && (match end_date with
      | some t => decide (t ≤ r.timestamp)
      | none => true)

/-- `get_crypto_data` (collector.py lines 189-230): `SELECT * FROM
crypto_prices` with the built `WHERE` clause and no `ORDER BY`, so matching
rows come back in table row order.  `readFails` models `pd.read_sql`
raising: the `except` block logs and returns an empty DataFrame, signalling
nothing, so the second component (the exception the caller observes) is
always `none`. -/
def get_crypto_data (s : Store) (crypto_ids : Option (List String))
    (start_date end_date : Option Int) (readFails : Bool) :
    List PriceRecord × Option StorageError :=
  if readFails then ([], none)
  else (s.filter (matchesFilters crypto_ids start_date end_date), none)

/-- The integer nearest `q * 100`, ties to even — the core of Python
`round(x, 2)`.  Computed on the exact rational: `q * 100 = (q.num * 100) / q.den`
with `q.den > 0`; the floor `fl` and remainder `rem` of that division decide
the direction, comparing `2 * rem` against the denominator to separate
below-half, above-half and the exact tie. -/
def roundHalfEven100 (q : Rat) : Int :=
  let m := q.num * 100
  let d := (q.den : Int)
  let fl := m.fdiv d
  let rem := m - fl * d
  if 2 * rem < d then fl
  else if d < 2 * rem then fl + 1
  else if fl % 2 = 0 then fl else fl + 1

/-- Python `round(x, 2)` (collector.py lines 128-130) on an exact value:
the nearest multiple of 1/100, ties to even. -/
def round2 (q : Rat) : Rat :=
  mkRat (roundHalfEven100 q) 100

/-- The provider's `market_chart` payload: index-aligned `[epoch_ms, value]`
series for `prices`, `market_caps` and `total_volumes` (collector.py lines
124-130). -/
structure ApiSeries where
  prices : List (Int × Rat)
  market_caps : List (Int × Rat)
  total_volumes : List (Int × Rat)
deriving Repr, DecidableEq

/-- The DataFrame built at collector.py lines 127-130: index from the
`prices` timestamps, each value column the positionally aligned series
rounded with `round(x, 2)`.  Pandas requires the assigned columns to have
the index's length, hence the simultaneous recursion. -/
def buildDF : List (Int × Rat) → List (Int × Rat) → List (Int × Rat) → List DFRow
  | p :: ps, mc :: mcs, tv :: tvs =>
    { timestamp := p.1
      price := round2 p.2
      market_cap := round2 mc.2
      volume := round2 tv.2 } :: buildDF ps mcs tvs
  | _, _, _ => []

/-- The success path of `fetch_crypto_prices` (collector.py lines 105-146):
each requested id is fetched and its DataFrame built; the result dictionary
is keyed by the id exactly as supplied (line 131 / line 134 / line 146 use
`crypto_id` verbatim, with no case folding). -/
def fetch_crypto_prices (inputs : List (String × ApiSeries)) :
    List (String × List DFRow) :=
  inputs.map (fun g => (g.1, buildDF g.2.prices g.2.market_caps g.2.total_volumes))

/-- `SELECT` of one key out of the store.  In a store whose keys are unique
(which every upsert preserves) this is the record with that primary key. -/
def lookup (s : Store) (t : Int) (c : String) : Option PriceRecord :=
  s.find? (sameKey t c)

/-- The sort order the spec claims for query results: ascending timestamp,
ties broken by identifier. -/
def specOrdered (l : List PriceRecord) : Prop :=
  l.Pairwise (fun a b =>
    a.timestamp < b.timestamp ∨ (a.timestamp = b.timestamp ∧ a.crypto_id ≤ b.crypto_id))

/-- The Python exception class of a failed attribute access. -/
inductive PyDynError where
  | attributeError
deriving Repr, DecidableEq

/-- The dynamically-typed value bound to `crypto_data` inside
`update_all_crypto_data`: either an actual dict of DataFrames, or the
coroutine object produced by calling the async `fetch_crypto_prices`
without awaiting it (collector.py line 245). -/
inductive CryptoDataArg where
  | dict (d : List (String × List DFRow))
  | coroutine
deriving Repr, DecidableEq

/-- Python attribute access `crypto_data.items()`: a dict yields its entries,
a coroutine object has no `items` attribute and raises `AttributeError`. -/
def itemsMethod : CryptoDataArg → Except PyDynError (List (String × List DFRow))
  | .dict d => .ok d
  | .coroutine => .error .attributeError

/-- `save_to_database` applied to a dynamically-typed argument.  The body
iterates `crypto_data.items()` inside the `try` block (line 161); an
`AttributeError` there is not a `SQLAlchemyError`, so the `except` clause
does not catch it: the session is closed by `finally` with nothing executed
or committed and the exception propagates (third component). -/
def save_to_database_dyn (v : CryptoDataArg) (failAt : Option Nat) (s : Store) :
    Store × Option StorageError × Option PyDynError :=
  match itemsMethod v with
  | .ok d =>
    let r := save_to_database d failAt s
    (r.1, r.2, none)
  | .error e => (s, none, some e)

/-- Calling the async `fetch_crypto_prices` from the synchronous
`update_all_crypto_data` without `await` or `asyncio.run` returns the
coroutine object itself, whatever the arguments. -/
def fetch_crypto_prices_unawaited (crypto_ids : List String) (days : String) :
    CryptoDataArg :=
  CryptoDataArg.coroutine

/-- `update_all_crypto_data` (collector.py lines 233-248) restricted to the
price pipeline: it binds `crypto_data` to the unawaited coroutine and hands
it to `save_to_database`.  The second component is the exception the caller
observes. -/
def update_all_crypto_data (crypto_ids : List String) (days : String)
    (failAt : Option Nat) (s : Store) : Store × Option PyDynError :=
  let crypto_data := fetch_crypto_prices_unawaited crypto_ids days
  let r := save_to_database_dyn crypto_data failAt s
  (r.1, r.2.2)

/-- Is the primary key of `x` hit by some record of the batch `b`? -/
def keyHit (b : List PriceRecord) (x : PriceRecord) : Bool :=
  b.any (fun r => sameKey r.timestamp r.crypto_id x)

/-- The end-to-end pipeline on one fetched asset: fetch the API series,
save the resulting DataFrames into an empty store, then query everything
back (`fetch_crypto_prices` → `save_to_database` → `get_crypto_data`, the
composition run by the main block of collector.py, lines 296-306). -/
def apiPipelineQuery (cid : String) (series : ApiSeries) : List PriceRecord :=
  (get_crypto_data
    (save_to_database (fetch_crypto_prices [(cid, series)]) none []).1
    none none none false).1

/-! ### Basic lemmas about keys, find? and upserts -/

theorem sameKey_eq_true {t : Int} {c : String} {r : PriceRecord} :
    sameKey t c r = true ↔ r.timestamp = t ∧ r.crypto_id = c := by
  simp [sameKey]

theorem find?_filter_of_imp {α : Type} (p q : α → Bool) (l : List α)
    (h : ∀ x, p x = true → q x = true) :
    (l.filter q).find? p = l.find? p := by
  induction l with
  | nil => rfl
  | cons a l ih =>
    by_cases hq : q a = true
    · rw [List.filter_cons_of_pos hq]
      cases hp : p a with
      | true => simp [List.find?_cons, hp]
      | false => simp [List.find?_cons, hp, ih]
    · have hp : p a = false := by
        cases hpa : p a with
        | true => exact absurd (h a hpa) hq
        | false => rfl
      rw [List.filter_cons_of_neg hq]
      simp [List.find?_cons, hp, ih]

theorem lookup_upsertOne (r : PriceRecord) (s : Store) (t : Int) (c : String) :
    lookup (upsertOne r s) t c =
      if sameKey t c r then some r else lookup s t c := by
  unfold lookup upsertOne
  rw [List.find?_append]
  by_cases hk : sameKey t c r = true
  · obtain ⟨ht, hc⟩ := sameKey_eq_true.mp hk
    have hnone : (s.filter (fun x => !(sameKey r.timestamp r.crypto_id x))).find?
        (sameKey t c) = none := by
      rw [List.find?_eq_none]
      intro x hx
      have hmem := List.mem_filter.mp hx
      intro hsk
      obtain ⟨hxt, hxc⟩ := sameKey_eq_true.mp hsk
      have : sameKey r.timestamp r.crypto_id x = true := by
        rw [sameKey_eq_true]
        exact ⟨by rw [hxt, ht], by rw [hxc, hc]⟩
      simp [this] at hmem
    rw [hnone]
    simp [List.find?, hk]
  · have hfilter : (s.filter (fun x => !(sameKey r.timestamp r.crypto_id x))).find?
        (sameKey t c) = s.find? (sameKey t c) := by
      apply find?_filter_of_imp
      intro x hx
      simp only [Bool.not_eq_true']
      obtain ⟨hxt, hxc⟩ := sameKey_eq_true.mp hx
      cases hrk : sameKey r.timestamp r.crypto_id x with
      | false => rfl
      | true =>
        obtain ⟨hrt, hrc⟩ := sameKey_eq_true.mp hrk
        refine absurd (sameKey_eq_true.mpr ⟨?_, ?_⟩) hk
        · rw [← hrt]; exact hxt
        · rw [← hrc]; exact hxc
    rw [hfilter]
    have hr : sameKey t c r = false := by simpa using hk
    simp [List.find?, hr]

theorem mem_upsertOne {x r : PriceRecord} {s : Store} (h : x ∈ upsertOne r s) :
    x = r ∨ x ∈ s := by
  unfold upsertOne at h
  rcases List.mem_append.mp h with h1 | h1
  · exact Or.inr (List.mem_filter.mp h1).1
  · simp at h1
    exact Or.inl h1

theorem mem_upsertBatch {x : PriceRecord} {b : List PriceRecord} {s : Store}
    (h : x ∈ upsertBatch b s) : x ∈ b ∨ x ∈ s := by
  induction b generalizing s with
  | nil => exact Or.inr h
  | cons a b ih =>
    have h' : x ∈ upsertBatch b (upsertOne a s) := h
    rcases ih h' with h1 | h1
    · exact Or.inl (List.mem_cons_of_mem a h1)
    · rcases mem_upsertOne h1 with h2 | h2
      · exact Or.inl (h2 ▸ List.mem_cons_self a b)
      · exact Or.inr h2

theorem lookup_upsertBatch_of_notMem {b : List PriceRecord} {s : Store} {t : Int}
    {c : String} (h : (t, c) ∉ b.map recKey) :
    lookup (upsertBatch b s) t c = lookup s t c := by
  induction b generalizing s with
  | nil => rfl
  | cons a b ih =>
    have hne : (t, c) ≠ recKey a := by
      intro heq
      exact h (by simp [heq])
    have hnotb : (t, c) ∉ b.map recKey := fun hm => h (by simp [hm])
    have step : lookup (upsertBatch (a :: b) s) t c
        = lookup (upsertBatch b (upsertOne a s)) t c := rfl
    rw [step, ih hnotb, lookup_upsertOne]
    have : sameKey t c a = false := by
      cases hsk : sameKey t c a with
      | false => rfl
      | true =>
        obtain ⟨ht, hc⟩ := sameKey_eq_true.mp hsk
        exact absurd (by simp [recKey, ht, hc]) hne
    simp [this]

theorem lookup_upsertBatch_mem {b : List PriceRecord} {s : Store} {r : PriceRecord}
    (hnodup : (b.map recKey).Nodup) (hr : r ∈ b) :
    lookup (upsertBatch b s) r.timestamp r.crypto_id = some r := by
  induction b generalizing s with
  | nil => exact absurd hr (List.not_mem_nil r)
  | cons a b ih =>
    have step : lookup (upsertBatch (a :: b) s) r.timestamp r.crypto_id
        = lookup (upsertBatch b (upsertOne a s)) r.timestamp r.crypto_id := rfl
    rcases List.mem_cons.mp hr with heq | hmem
    · subst heq
      have hnot : (r.timestamp, r.crypto_id) ∉ b.map recKey := by
        have := (List.nodup_cons.mp hnodup).1
        simpa [recKey] using this
      rw [step, lookup_upsertBatch_of_notMem hnot, lookup_upsertOne]
      simp [sameKey_eq_true]
    · rw [step]
      exact ih (List.nodup_cons.mp hnodup).2 hmem

/-! ### Transaction lemmas -/

theorem runExecs_none (bs : List (List PriceRecord)) (p : Store) :
    runExecs bs none p = .ok (bs.foldl (fun acc b => upsertBatch b acc) p) := by
  induction bs generalizing p with
  | nil => rfl
  | cons b rest ih =>
    show runExecs (b :: rest) none p = _
    rw [runExecs]
    simp only [reduceCtorEq, if_false, Option.map_none']
    rw [ih]
    rfl

theorem runExecs_ok {bs : List (List PriceRecord)} {failAt : Option Nat} {p q : Store}
    (h : runExecs bs failAt p = .ok q) :
    q = bs.foldl (fun acc b => upsertBatch b acc) p := by
  induction bs generalizing failAt p with
  | nil =>
    simp only [runExecs] at h
    cases h
    rfl
  | cons b rest ih =>
    rw [runExecs] at h
    by_cases hf : failAt = some 0
    · rw [if_pos hf] at h
      cases h
    · rw [if_neg hf] at h
      exact ih h

theorem runExecs_fail {bs : List (List PriceRecord)} {j : Nat}
    (h : j < bs.length) (p : Store) :
    runExecs bs (some j) p = .error .storageError := by
  induction bs generalizing j p with
  | nil => exact absurd h (Nat.not_lt_zero j)
  | cons b rest ih =>
    rw [runExecs]
    cases j with
    | zero => simp
    | succ j =>
      have hne : (some (j + 1) : Option Nat) ≠ some 0 := by simp
      rw [if_neg hne]
      have : (some (j + 1) : Option Nat).map (fun j => j - 1) = some j := by simp
      rw [this]
      exact ih (Nat.lt_of_succ_lt_succ h) _

/-! ### Algebra of the OR REPLACE upsert -/

theorem upsertBatch_cons (r : PriceRecord) (b : List PriceRecord) (s : Store) :
    upsertBatch (r :: b) s = upsertBatch b (upsertOne r s) := rfl

theorem upsertBatch_decompose (b : List PriceRecord) (s : Store) :
    upsertBatch b s = s.filter (fun x => !(keyHit b x)) ++ upsertBatch b [] := by
  induction b generalizing s with
  | nil =>
    show s = s.filter (fun x => !(keyHit [] x)) ++ []
    simp [keyHit]
  | cons r b ih =>
    rw [upsertBatch_cons, ih (upsertOne r s), upsertBatch_cons, ih (upsertOne r [])]
    show (upsertOne r s).filter _ ++ _ = _
    unfold upsertOne
    rw [List.filter_append, List.filter_filter, List.append_assoc]
    congr 1
    · apply List.filter_congr
      intro x _
      show (!keyHit b x && !sameKey r.timestamp r.crypto_id x) = !keyHit (r :: b) x
      unfold keyHit
      rw [List.any_cons]
      cases h1 : sameKey r.timestamp r.crypto_id x <;>
        cases h2 : b.any (fun y => sameKey y.timestamp y.crypto_id x) <;> simp [h1, h2]

theorem mem_upsertBatch_nil_keyHit {b : List PriceRecord} {x : PriceRecord}
    (h : x ∈ upsertBatch b []) : keyHit b x = true := by
  rcases mem_upsertBatch h with h1 | h1
  · unfold keyHit
    rw [List.any_eq_true]
    exact ⟨x, h1, by simp [sameKey]⟩
  · exact absurd h1 (List.not_mem_nil x)

theorem upsertBatch_idem (b : List PriceRecord) (s : Store) :
    upsertBatch b (upsertBatch b s) = upsertBatch b s := by
  conv_lhs => rw [upsertBatch_decompose b (upsertBatch b s)]
  conv_lhs => rw [upsertBatch_decompose b s]
  rw [List.filter_append, List.filter_filter]
  have h1 : (upsertBatch b []).filter
      (fun x => !(keyHit b x)) = [] := by
    rw [List.filter_eq_nil_iff]
    intro x hx
    simp [mem_upsertBatch_nil_keyHit hx]
  have h2 : s.filter (fun x => !(keyHit b x) && !(keyHit b x))
      = s.filter (fun x => !(keyHit b x)) := by
    apply List.filter_congr
    intro x _
    cases h : keyHit b x <;> simp [h]
  rw [h1, h2, List.append_nil]
  exact (upsertBatch_decompose b s).symm

theorem nodupKeys_upsertOne {r : PriceRecord} {s : Store}
    (h : (s.map recKey).Nodup) : ((upsertOne r s).map recKey).Nodup := by
  unfold upsertOne
  rw [List.map_append, List.map_cons, List.map_nil]
  apply List.Nodup.append
  · exact List.Nodup.sublist (List.Sublist.map recKey (List.filter_sublist s)) h
  · exact List.nodup_singleton _
  · intro k hk1 hk2
    rw [List.mem_singleton] at hk2
    rw [List.mem_map] at hk1
    obtain ⟨x, hx, hxk⟩ := hk1
    have hmem := List.mem_filter.mp hx
    have hne : sameKey r.timestamp r.crypto_id x = false := by
      simpa using hmem.2
    rw [hk2] at hxk
    have : x.timestamp = r.timestamp ∧ x.crypto_id = r.crypto_id := by
      have := congrArg Prod.fst hxk
      have h2 := congrArg Prod.snd hxk
      exact ⟨this, h2⟩
    have hcontra : sameKey r.timestamp r.crypto_id x = true := sameKey_eq_true.mpr this
    rw [hcontra] at hne
    cases hne

theorem nodupKeys_upsertBatch {b : List PriceRecord} {s : Store}
    (h : (s.map recKey).Nodup) : ((upsertBatch b s).map recKey).Nodup := by
  induction b generalizing s with
  | nil => exact h
  | cons r b ih => exact ih (nodupKeys_upsertOne h)

theorem upsertBatch_append (b1 b2 : List PriceRecord) (s : Store) :
    upsertBatch (b1 ++ b2) s = upsertBatch b2 (upsertBatch b1 s) := by
  unfold upsertBatch
  rw [List.foldl_append]

theorem foldl_upsertBatch_eq_join (bs : List (List PriceRecord)) (s : Store) :
    bs.foldl (fun acc b => upsertBatch b acc) s = upsertBatch bs.flatten s := by
  induction bs generalizing s with
  | nil => rfl
  | cons b bs ih =>
    show bs.foldl _ (upsertBatch b s) = _
    rw [ih, List.flatten_cons, upsertBatch_append]

theorem save_to_database_none (crypto_data : List (String × List DFRow)) (s : Store) :
    save_to_database crypto_data none s
      = (upsertBatch (execBatches crypto_data).flatten s, none) := by
  unfold save_to_database
  rw [runExecs_none, foldl_upsertBatch_eq_join]

theorem upsertOne_fresh {r : PriceRecord} {s : Store}
    (h : ∀ x ∈ s, sameKey r.timestamp r.crypto_id x = false) :
    upsertOne r s = s ++ [r] := by
  unfold upsertOne
  congr 1
  rw [List.filter_eq_self]
  intro x hx
  simp [h x hx]

theorem upsertBatch_fresh {b : List PriceRecord} {s : Store}
    (h : ((s ++ b).map recKey).Nodup) : upsertBatch b s = s ++ b := by
  induction b generalizing s with
  | nil => simp [upsertBatch]
  | cons r bs ih =>
    rw [List.map_append] at h
    have hdisj := (List.nodup_append.mp h).2.2
    have hfresh : ∀ x ∈ s, sameKey r.timestamp r.crypto_id x = false := by
      intro x hx
      cases hsk : sameKey r.timestamp r.crypto_id x with
      | false => rfl
      | true =>
        obtain ⟨hxt, hxc⟩ := sameKey_eq_true.mp hsk
        have hkx : recKey x ∈ s.map recKey := List.mem_map_of_mem recKey hx
        have hkr : recKey x ∈ (r :: bs).map recKey := by
          have : recKey x = recKey r := by
            unfold recKey
            rw [hxt, hxc]
          simp [this]
        exact absurd hkr (hdisj hkx)
    rw [upsertBatch_cons, upsertOne_fresh hfresh, ih]
    · rw [List.append_assoc, List.singleton_append]
    · rw [List.append_assoc, List.singleton_append, List.map_append]
      exact h

/-! ### Query lemmas -/

theorem matchesFilters_noFilters (r : PriceRecord) :
    matchesFilters none none none r = true := rfl

theorem get_crypto_data_noFilters (s : Store) :
    get_crypto_data s none none none false = (s, none) := by
  unfold get_crypto_data
  rw [if_neg (by simp)]
  rw [List.filter_eq_self.mpr (fun x _ => matchesFilters_noFilters x)]

/-! ### DataFrame construction lemmas -/

theorem buildDF_map_timestamp :
    ∀ (ps mcs tvs : List (Int × Rat)), mcs.length = ps.length →
      tvs.length = ps.length →
      (buildDF ps mcs tvs).map DFRow.timestamp = ps.map Prod.fst
  | [], [], [], _, _ => rfl
  | p :: ps, mc :: mcs, tv :: tvs, hmc, htv => by
    rw [buildDF, List.map_cons, List.map_cons,
      buildDF_map_timestamp ps mcs tvs (Nat.succ_injective hmc) (Nat.succ_injective htv)]

theorem buildDF_map_price :
    ∀ (ps mcs tvs : List (Int × Rat)), mcs.length = ps.length →
      tvs.length = ps.length →
      (buildDF ps mcs tvs).map DFRow.price = ps.map (fun p => round2 p.2)
  | [], [], [], _, _ => rfl
  | p :: ps, mc :: mcs, tv :: tvs, hmc, htv => by
    rw [buildDF, List.map_cons, List.map_cons,
      buildDF_map_price ps mcs tvs (Nat.succ_injective hmc) (Nat.succ_injective htv)]

theorem buildDF_map_market_cap :
    ∀ (ps mcs tvs : List (Int × Rat)), mcs.length = ps.length →
      tvs.length = ps.length →
      (buildDF ps mcs tvs).map DFRow.market_cap = mcs.map (fun mc => round2 mc.2)
  | [], [], [], _, _ => rfl
  | p :: ps, mc :: mcs, tv :: tvs, hmc, htv => by
    rw [buildDF, List.map_cons, List.map_cons,
      buildDF_map_market_cap ps mcs tvs (Nat.succ_injective hmc) (Nat.succ_injective htv)]

theorem buildDF_map_volume :
    ∀ (ps mcs tvs : List (Int × Rat)), mcs.length = ps.length →
      tvs.length = ps.length →
      (buildDF ps mcs tvs).map DFRow.volume = tvs.map (fun tv => round2 tv.2)
  | [], [], [], _, _ => rfl
  | p :: ps, mc :: mcs, tv :: tvs, hmc, htv => by
    rw [buildDF, List.map_cons, List.map_cons,
      buildDF_map_volume ps mcs tvs (Nat.succ_injective hmc) (Nat.succ_injective htv)]

/-! ### Claim theorems -/

/-- C1: the claim says every record returned by the Range Reader satisfies
all supplied filters, in particular `timestamp <= end` when `end` is
supplied.  The code violates this: line 217 of collector.py builds the end
condition as `timestamp >= end_date`.  Concretely, a store holding one
record with timestamp 10 queried with `end = 5` returns that record even
though 10 > 5, while the docstring and parameter name say `end_date` is the
end of the range. -/
theorem c1_end_bound_failing_input :
    (get_crypto_data
        [{ timestamp := 10, crypto_id := "btc", price := 1, market_cap := 1, volume := 1 }]
        none none (some 5) false).1
      = [{ timestamp := 10, crypto_id := "btc", price := 1, market_cap := 1, volume := 1 }]
    ∧ ¬((10 : Int) ≤ 5) := by
  exact ⟨rfl, by decide⟩

/-- C2 counterexample: the claim says a failed write transaction signals
`StorageError` to the caller.  It does not: with one record batch whose
execute raises (`failAt = some 0`, triggered since the call performs one
execute), `save_to_database` still returns with no exception observed by
the caller (collector.py lines 182-184 catch, roll back and log without
re-raising). -/
theorem c2_counterexample :
    failTriggered [("btc", [{ timestamp := 0, price := 1, market_cap := 1, volume := 1 }])]
        (some 0) = true
    ∧ (save_to_database
        [("btc", [{ timestamp := 0, price := 1, market_cap := 1, volume := 1 }])]
        (some 0) []).2 = none := by
  exact ⟨rfl, rfl⟩

/-- C2 amended: on transaction failure, `save_to_database` rolls the store
back to its prior state and returns normally, signalling nothing to the
caller (the `SQLAlchemyError` is caught and only logged). -/
theorem c2_swallows_storage_error (crypto_data : List (String × List DFRow))
    (failAt : Option Nat) (s : Store) (h : failTriggered crypto_data failAt = true) :
    save_to_database crypto_data failAt s = (s, none) := by
  unfold failTriggered at h
  cases failAt with
  | none => cases h
  | some j =>
    have hj : j < (execBatches crypto_data).length := by simpa using h
    unfold save_to_database
    rw [runExecs_fail hj]

/-- Witness for the amended C2 at a concrete failing call. -/
theorem c2_swallows_storage_error_witness :
    save_to_database
        [("btc", [{ timestamp := 0, price := 1, market_cap := 1, volume := 1 }])]
        (some 0) [] = ([], none) :=
  c2_swallows_storage_error
    [("btc", [{ timestamp := 0, price := 1, market_cap := 1, volume := 1 }])]
    (some 0) [] (by decide)

/-- C3 counterexample: the claim says a storage-access error during the read
is signalled as `StorageError` and never replaced by an empty successful
result.  The code does the opposite: with a nonempty store and a failing
read, `get_crypto_data` returns an empty result with no exception
(collector.py lines 228-230 catch, log and return an empty DataFrame). -/
theorem c3_counterexample :
    (get_crypto_data
        [{ timestamp := 0, crypto_id := "btc", price := 1, market_cap := 1, volume := 1 }]
        none none none true).2 = none
    ∧ (get_crypto_data
        [{ timestamp := 0, crypto_id := "btc", price := 1, market_cap := 1, volume := 1 }]
        none none none true).1 = [] := by
  exact ⟨rfl, rfl⟩

/-- C3 amended: on a storage-access error during the read, `get_crypto_data`
substitutes an empty successful result and signals no error to its caller,
whatever the store and filters are. -/
theorem c3_read_error_swallowed (s : Store) (crypto_ids : Option (List String))
    (start_date end_date : Option Int) :
    get_crypto_data s crypto_ids start_date end_date true = ([], none) := rfl

/-- C4 counterexample: the claim says query results are ordered ascending by
timestamp with ties broken by identifier.  The `SELECT` built at collector.py
lines 206-220 has no `ORDER BY`, so rows come back in table row order: after
upserting a timestamp-2 record and then a timestamp-1 record into an empty
store, an unfiltered query returns them in that order, which is not
ascending. -/
theorem c4_counterexample :
    ¬ specOrdered (get_crypto_data
        (upsertBatch
          [{ timestamp := 2, crypto_id := "a", price := 1, market_cap := 1, volume := 1 },
           { timestamp := 1, crypto_id := "b", price := 1, market_cap := 1, volume := 1 }] [])
        none none none false).1 := by
  intro h
  have heval : (get_crypto_data
      (upsertBatch
        [{ timestamp := 2, crypto_id := "a", price := 1, market_cap := 1, volume := 1 },
         { timestamp := 1, crypto_id := "b", price := 1, market_cap := 1, volume := 1 }] [])
      none none none false).1
      = [{ timestamp := 2, crypto_id := "a", price := 1, market_cap := 1, volume := 1 },
         { timestamp := 1, crypto_id := "b", price := 1, market_cap := 1, volume := 1 }] := rfl
  rw [heval, specOrdered, List.pairwise_cons] at h
  have hrel := h.1 _ (List.mem_singleton_self _)
  rcases hrel with h1 | h1
  · exact absurd h1 (by decide)
  · exact absurd h1.1 (by decide)

/-- C4 amended: the reader applies no ordering of its own; the returned
sequence is the matching records as a subsequence of the store's row order
(ascending-timestamp ordering is not guaranteed). -/
theorem c4_store_order (s : Store) (crypto_ids : Option (List String))
    (start_date end_date : Option Int) :
    ((get_crypto_data s crypto_ids start_date end_date false).1).Sublist s := by
  unfold get_crypto_data
  rw [if_neg (by simp)]
  exact List.filter_sublist s

/-- C5 counterexample: the claim says the stored key is the lowercase
case-folded input identifier.  Nothing in the pipeline lowercases: fetching
and saving the identifier "BTC" stores the key "BTC", not "btc"
(collector.py lines 131, 146, 161-166 use the identifier verbatim). -/
theorem c5_counterexample :
    ((save_to_database
        (fetch_crypto_prices
          [("BTC", (⟨[(0, 1)], [(0, 1)], [(0, 1)]⟩ : ApiSeries))])
        none []).1).map PriceRecord.crypto_id
      = ["BTC"]
    ∧ ("BTC" : String) ≠ "btc" := by
  exact ⟨rfl, by decide⟩

/-- C5 amended: the asset identifier is stored exactly as supplied, with no
case folding: every record a save call adds under the dict key `cid` carries
`cid` verbatim as its `crypto_id`, so inputs differing only in casing map to
different keys. -/
theorem c5_identifier_verbatim (cid : String) (rows : List DFRow)
    (failAt : Option Nat) (s : Store) (r : PriceRecord)
    (hr : r ∈ (save_to_database [(cid, rows)] failAt s).1) :
    r.crypto_id = cid ∨ r ∈ s := by
  unfold save_to_database at hr
  cases hrun : runExecs (execBatches [(cid, rows)]) failAt s with
  | error e =>
    rw [hrun] at hr
    exact Or.inr hr
  | ok q =>
    rw [hrun] at hr
    have hq := runExecs_ok hrun
    subst hq
    rw [foldl_upsertBatch_eq_join] at hr
    rcases mem_upsertBatch hr with h1 | h1
    · left
      rw [List.mem_flatten] at h1
      obtain ⟨b, hb, hrb⟩ := h1
      unfold execBatches at hb
      simp only [List.map_cons, List.map_nil] at hb
      have hb' := (List.mem_filter.mp hb).1
      rw [List.mem_singleton] at hb'
      subst hb'
      unfold rowsToRecords at hrb
      rw [List.mem_map] at hrb
      obtain ⟨row, _, hrow⟩ := hrb
      rw [← hrow]
    · exact Or.inr h1

/-- Witness for the amended C5 at a concrete record added by a save call. -/
theorem c5_identifier_verbatim_witness :
    ({ timestamp := 0, crypto_id := "btc", price := 1, market_cap := 1, volume := 1 }
        : PriceRecord).crypto_id = "btc"
    ∨ ({ timestamp := 0, crypto_id := "btc", price := 1, market_cap := 1, volume := 1 }
        : PriceRecord) ∈ ([] : Store) :=
  c5_identifier_verbatim "btc" [{ timestamp := 0, price := 1, market_cap := 1, volume := 1 }]
    none []
    { timestamp := 0, crypto_id := "btc", price := 1, market_cap := 1, volume := 1 }
    (by decide)

/-- C6: when a save call contains a record whose `(timestamp, crypto_id)`
key already exists in the store, a successful call leaves exactly the new
record's field values under that key — `INSERT OR REPLACE` replaces the
whole row, merging nothing.  `hnodup` says the call's batch carries one
record per key, so `r` is the record for its key. -/
theorem c6_full_replacement (cid : String) (rows : List DFRow) (s : Store)
    (hnodup : ((rowsToRecords cid rows).map recKey).Nodup)
    (r : PriceRecord) (hr : r ∈ rowsToRecords cid rows)
    (hold : ∃ old ∈ s, recKey old = recKey r) :
    lookup (save_to_database [(cid, rows)] none s).1 r.timestamp r.crypto_id
      = some r := by
  clear hold
  rw [save_to_database_none]
  have hne : (rowsToRecords cid rows).isEmpty = false := by
    cases hemp : (rowsToRecords cid rows).isEmpty with
    | false => rfl
    | true =>
      rw [List.isEmpty_iff] at hemp
      rw [hemp] at hr
      exact absurd hr (List.not_mem_nil r)
  have hflat : (execBatches [(cid, rows)]).flatten = rowsToRecords cid rows := by
    unfold execBatches
    simp [hne]
  show lookup (upsertBatch (execBatches [(cid, rows)]).flatten s) _ _ = some r
  rw [hflat]
  exact lookup_upsertBatch_mem hnodup hr

/-- Witness for C6: key (0, "btc") holds the old values (5, 5, 5); saving a
batch with new values (1, 1, 1) for the same key leaves exactly the new
record. -/
theorem c6_full_replacement_witness :
    lookup (save_to_database
        [("btc", [{ timestamp := 0, price := 1, market_cap := 1, volume := 1 }])]
        none
        [{ timestamp := 0, crypto_id := "btc", price := 5, market_cap := 5, volume := 5 }]).1
      0 "btc"
      = some { timestamp := 0, crypto_id := "btc", price := 1, market_cap := 1, volume := 1 } :=
  c6_full_replacement "btc"
    [{ timestamp := 0, price := 1, market_cap := 1, volume := 1 }]
    [{ timestamp := 0, crypto_id := "btc", price := 5, market_cap := 5, volume := 5 }]
    (by decide)
    { timestamp := 0, crypto_id := "btc", price := 1, market_cap := 1, volume := 1 }
    (by decide)
    ⟨{ timestamp := 0, crypto_id := "btc", price := 5, market_cap := 5, volume := 5 },
      by decide, by decide⟩

/-- C7: saving the same dataset twice in succession yields exactly the store
state of saving it once (last-write-wins replace is idempotent), and a save
into an empty store never produces duplicate `(timestamp, crypto_id)`
keys. -/
theorem c7_idempotent_save (crypto_data : List (String × List DFRow)) (s : Store) :
    (save_to_database crypto_data none (save_to_database crypto_data none s).1).1
      = (save_to_database crypto_data none s).1
    ∧ (((save_to_database crypto_data none []).1).map recKey).Nodup := by
  constructor
  · simp only [save_to_database_none]
    exact upsertBatch_idem _ s
  · rw [save_to_database_none]
    exact nodupKeys_upsertBatch List.nodup_nil

/-- C8: a save call is atomic — the visible store after the call is either
the fully committed batch (every record applied) or, when the transaction
fails at any point, exactly the store from before the call; no partial
subset of the batch is ever visible. -/
theorem c8_atomic_batch (crypto_data : List (String × List DFRow))
    (failAt : Option Nat) (s : Store) :
    (save_to_database crypto_data failAt s).1 = s
    ∨ (save_to_database crypto_data failAt s).1
        = (save_to_database crypto_data none s).1 := by
  cases hrun : runExecs (execBatches crypto_data) failAt s with
  | error e =>
    left
    unfold save_to_database
    rw [hrun]
  | ok q =>
    right
    unfold save_to_database
    rw [hrun, runExecs_none]
    exact runExecs_ok hrun

/-- C9: `update_all_crypto_data` calls the async `fetch_crypto_prices`
without awaiting it (collector.py line 245) and hands the coroutine object
to `save_to_database`, whose `crypto_data.items()` call raises
`AttributeError`; the exception is not a `SQLAlchemyError` so nothing
catches it, and no price record is ever written by this entry point: for
every input the store is unchanged and the caller sees the
`AttributeError`. -/
theorem c9_unawaited_coroutine (crypto_ids : List String) (days : String)
    (failAt : Option Nat) (s : Store) :
    update_all_crypto_data crypto_ids days failAt s
      = (s, some PyDynError.attributeError) := rfl

theorem rowsToRecords_map_price (cid : String) (df : List DFRow) :
    (rowsToRecords cid df).map PriceRecord.price = df.map DFRow.price := by
  unfold rowsToRecords
  rw [List.map_map]
  rfl

theorem rowsToRecords_map_market_cap (cid : String) (df : List DFRow) :
    (rowsToRecords cid df).map PriceRecord.market_cap = df.map DFRow.market_cap := by
  unfold rowsToRecords
  rw [List.map_map]
  rfl

theorem rowsToRecords_map_volume (cid : String) (df : List DFRow) :
    (rowsToRecords cid df).map PriceRecord.volume = df.map DFRow.volume := by
  unfold rowsToRecords
  rw [List.map_map]
  rfl

theorem rowsToRecords_map_recKey (cid : String) (df : List DFRow) :
    (rowsToRecords cid df).map recKey
      = (df.map DFRow.timestamp).map (fun t => (t, cid)) := by
  unfold rowsToRecords
  rw [List.map_map, List.map_map]
  rfl

/-- C10: the values the pipeline persists and serves back are the provider's
values rounded with Python `round(x, 2)` (ties to even), in series order:
for every asset id and index-aligned API series with distinct timestamps,
fetching, saving into an empty store and querying everything back yields
exactly the rounded `prices`, `market_caps` and `total_volumes` values
(collector.py lines 128-130), not the raw provider values. -/
theorem c10_values_rounded (cid : String) (series : ApiSeries)
    (hmc : series.market_caps.length = series.prices.length)
    (htv : series.total_volumes.length = series.prices.length)
    (hts : (series.prices.map Prod.fst).Nodup) :
    (apiPipelineQuery cid series).map PriceRecord.price
        = series.prices.map (fun p => round2 p.2)
    ∧ (apiPipelineQuery cid series).map PriceRecord.market_cap
        = series.market_caps.map (fun mc => round2 mc.2)
    ∧ (apiPipelineQuery cid series).map PriceRecord.volume
        = series.total_volumes.map (fun tv => round2 tv.2) := by
  have hquery : apiPipelineQuery cid series
      = rowsToRecords cid
          (buildDF series.prices series.market_caps series.total_volumes) := by
    unfold apiPipelineQuery
    rw [save_to_database_none, get_crypto_data_noFilters]
    show upsertBatch (execBatches (fetch_crypto_prices [(cid, series)])).flatten [] = _
    have hfetch : execBatches (fetch_crypto_prices [(cid, series)])
        = [rowsToRecords cid
            (buildDF series.prices series.market_caps series.total_volumes)].filter
            (fun rs => !rs.isEmpty) := rfl
    rw [hfetch]
    cases hemp : (rowsToRecords cid
        (buildDF series.prices series.market_caps series.total_volumes)).isEmpty with
    | true =>
      have hnil := List.isEmpty_iff.mp hemp
      simp [hemp, hnil, upsertBatch]
    | false =>
      have hkeys : ((([] : Store)
          ++ rowsToRecords cid
              (buildDF series.prices series.market_caps series.total_volumes)).map
            recKey).Nodup := by
        rw [List.nil_append, rowsToRecords_map_recKey,
          buildDF_map_timestamp _ _ _ hmc htv]
        exact hts.map (fun a b hab => by simpa using congrArg Prod.fst hab)
      simp only [List.filter_cons, hemp, Bool.not_false, if_true, List.filter_nil,
        List.flatten_cons, List.flatten_nil, List.append_nil]
      rw [upsertBatch_fresh hkeys, List.nil_append]
  refine ⟨?_, ?_, ?_⟩
  · rw [hquery, rowsToRecords_map_price, buildDF_map_price _ _ _ hmc htv]
  · rw [hquery, rowsToRecords_map_market_cap, buildDF_map_market_cap _ _ _ hmc htv]
  · rw [hquery, rowsToRecords_map_volume, buildDF_map_volume _ _ _ hmc htv]

/-- Witness for C10 at a concrete series: the provider price 201/200
(= 1.005) is persisted and queried back as round(1.005, 2) = 1, not as the
raw value. -/
theorem c10_values_rounded_witness :
    (apiPipelineQuery "btc"
        (⟨[(0, mkRat 201 200)], [(0, 3)], [(0, 7)]⟩ : ApiSeries)).map
        PriceRecord.price
      = [(1 : Rat)]
    ∧ round2 (mkRat 201 200) ≠ mkRat 201 200 := by
  have h := c10_values_rounded "btc"
    (⟨[(0, mkRat 201 200)], [(0, 3)], [(0, 7)]⟩ : ApiSeries)
    (by decide) (by decide) (by decide)
  exact ⟨h.1.trans (by decide), by decide⟩

end CryptoCollector
